import Mathlib

/-!
Shallow embedding of the custom-model asset resolution layer of the
bilingual-reader application.

Embedded source files:
* `public/sw.js` — the persistent service-worker responder (`serveCustomModel`).
* the main application module — the same-process `window.fetch` interceptor,
  the model-config parsing effect (`parseConfigs`), the cache/IndexedDB
  synchronization effect, and `loadOfflineModel`.
* `vite.config.ts` — the dev-server middleware (`customModelNotFoundPlugin`).

JS strings are modelled as Lean `String`; the JS string operations used by the
code (`includes`, `endsWith`, `startsWith`, `toLowerCase`, `split`) are given
explicit executable models on the underlying character lists.  JS `Map` objects
and the Cache API are modelled as association lists in insertion order;
`Map.get` / `cache.match` return the first entry with the requested key, and
`cache.put` deletes any entry with the same key and appends the new one, as the
Cache API does.
-/

namespace BilingualReader

/-- Model of JS `s.includes(pat)`: `pat` occurs as a contiguous substring. -/
def strIncludes (s pat : String) : Bool :=
  decide (pat.data <:+: s.data)

/-- Model of JS `s.endsWith(pat)`. -/
def strEndsWith (s pat : String) : Bool :=
  decide (pat.data <:+ s.data)

/-- Model of JS `s.startsWith(pat)`. -/
def strStartsWith (s pat : String) : Bool :=
  decide (pat.data <+: s.data)

/-- Model of JS `s.toLowerCase()` (character-wise lowering). -/
def jsToLower (s : String) : String :=
  ⟨s.data.map Char.toLower⟩

/-- Worker for `jsSplit`, structurally recursive on a character-count fuel so
that it evaluates inside the kernel.  At each position: if the (nonempty)
separator is a prefix, cut there and continue after it; otherwise the current
character joins the first piece of the remainder's split. -/
def jsSplitAux (sep : List Char) : Nat → List Char → List (List Char)
  | _, [] => [[]]
  | 0, l => [l]
  | fuel + 1, c :: rest =>
    if sep.isPrefixOf (c :: rest) then
      [] :: jsSplitAux sep fuel (rest.drop (sep.length - 1))
    else
      match jsSplitAux sep fuel rest with
      | [] => [[c]]
      | h :: t => (c :: h) :: t

/-- Model of JS `s.split(sep)` for a nonempty string separator: the pieces of
`s` between non-overlapping left-to-right occurrences of `sep`.  The result is
never empty. -/
def jsSplit (s sep : String) : List String :=
  (jsSplitAux sep.data s.data.length s.data).map (fun l => ⟨l⟩)

/-- JS `s.split(sep)[0]` (the list produced by `split` is never empty). -/
def jsFirst (l : List String) : String :=
  l.headD ""

/-- JS `parts[parts.length - 1]` / `parts.pop()` (the list produced by `split`
is never empty). -/
def jsLast (l : List String) : String :=
  l.getLastD ""

/-- A binary blob as uploaded by the user: its bytes (abstracted as a string)
and its declared MIME type (`Blob.type`, possibly empty). -/
structure Blob where
  data : String
  ctype : String
deriving DecidableEq, Repr

/-- The asset bag: JS `Map<string, Blob>` in insertion order with unique keys. -/
abbrev Files := List (String × Blob)

/-- JS `Map.get`: the entry stored under `name`, if any. -/
def getFile (files : Files) (name : String) : Option Blob :=
  (files.find? (fun p => p.1 = name)).map (fun p => p.2)

/-- The shared `custom-model-cache-v1` Cache: URL-keyed stored responses
(each stored response is a 200 wrapping the blob). -/
abbrev Cache := List (String × Blob)

/-- `cache.match(url)`: first stored response whose request URL equals `url`. -/
def cacheMatch (c : Cache) (url : String) : Option Blob :=
  (c.find? (fun p => p.1 = url)).map (fun p => p.2)

/-- `cache.put(url, resp)`: any entry with the same URL is replaced; the new
entry is appended at the end of the request list. -/
def cachePut (c : Cache) (url : String) (b : Blob) : Cache :=
  (c.filter (fun p => p.1 ≠ url)) ++ [(url, b)]

/-- `cache.delete(url)`: removes the entry (entries) stored under `url`. -/
def cacheDelete (c : Cache) (url : String) : Cache :=
  c.filter (fun p => p.1 ≠ url)

/-- The reserved virtual-path segment used by every responder. -/
def customModelSeg : String := "/custom-model/"

/-- The URL namespace under which the cache synchronization stores blobs
(`'/custom-model-files/' + name`). -/
def cacheFilesPfx : String := "/custom-model-files/"

/-- The cache-synchronization step run after every wholesale replace of the
asset bag (and again by `loadOfflineModel`): for every `(name, blob)` in the
bag, `cache.put('/custom-model-files/' + name, new Response(blob))`. -/
def syncCache (c : Cache) (files : Files) : Cache :=
  files.foldl (fun acc p => cachePut acc (cacheFilesPfx ++ p.1) p.2) c

/-- The image of an asset bag in the shared cache when synchronized into an
empty cache (insertion order preserved, keys unique). -/
def syncImage (files : Files) : Cache :=
  files.map (fun p => (cacheFilesPfx ++ p.1, p.2))

/-- `sw.js` `serveCustomModel`, resolution portion: the tiered lookup of a
normalized relative path against the shared cache (lines 33–71 of `sw.js`).
Tier 1 exact URL match, tier 2 basename match, then for `.onnx` requests the
encoder / decoder-or-merged fuzzy tiers and the single-ONNX fallback. -/
def swResolve (cache : Cache) (relativePath : String) : Option Blob :=
  let filenameOnly :=
    let l := jsLast (jsSplit relativePath "/")
    if l = "" then relativePath else l
  let r1 := cacheMatch cache (cacheFilesPfx ++ relativePath)
  let r2 := match r1 with
    | some b => some b
    | none => cacheMatch cache (cacheFilesPfx ++ filenameOnly)
  match r2 with
  | some b => some b
  | none =>
    if strEndsWith filenameOnly ".onnx" then
      let keys := cache.map (fun p => p.1)
      let isEncoder := strIncludes (jsToLower filenameOnly) "encoder"
      let isDecoder := strIncludes (jsToLower filenameOnly) "decoder"
      let fuzzy :=
        if isEncoder then
          match keys.find? (fun k => strIncludes (jsToLower k) "encoder" && strEndsWith k ".onnx") with
          | some k => cacheMatch cache k
          | none => none
        else if isDecoder || strIncludes (jsToLower filenameOnly) "merged" then
          match keys.find? (fun k =>
              (strIncludes (jsToLower k) "decoder" || strIncludes (jsToLower k) "merged")
                && strEndsWith k ".onnx") with
          | some k => cacheMatch cache k
          | none => none
        else none
      match fuzzy with
      | some b => some b
      | none =>
        let onnxKeys := keys.filter (fun k => strEndsWith k ".onnx")
        match onnxKeys with
        | [k] => cacheMatch cache k
        | _ => none
    else none

/-- An HTTP response as far as the claims are concerned: status, the
`Content-Type` header, and the body text. -/
structure HttpResponse where
  status : Nat
  ctype : String
  body : String
deriving DecidableEq, Repr

/-- `sw.js` `serveCustomModel`: normalizes the pathname (strip query suffix,
take the part after `/custom-model/`), resolves it against the shared cache,
and answers 200 with the stored blob on a hit or a plain-text 404 naming the
missing file on a miss. -/
def serveCustomModel (cache : Cache) (pathname : String) : HttpResponse :=
  let cleanPathname := jsFirst (jsSplit pathname "?")
  let relativePath := jsLast (jsSplit cleanPathname customModelSeg)
  let filenameOnly :=
    let l := jsLast (jsSplit relativePath "/")
    if l = "" then relativePath else l
  match swResolve cache relativePath with
  | some b => { status := 200, ctype := b.ctype, body := b.data }
  | none =>
      { status := 404, ctype := "text/plain"
        body := "File kustom tidak ditemukan di cache: " ++ filenameOnly }

/-- The main-module `window.fetch` interceptor, resolution portion (the tiered
lookup against the published asset map, lines 38–67 of the module): tier 1
exact key, tier 2 basename key, then for `.onnx` requests the encoder tier,
the decoder-then-merged tier, and the single-ONNX fallback. -/
def fetchResolve (files : Files) (relativePath : String) : Option Blob :=
  let filenameOnly := jsLast (jsSplit relativePath "/")
  let exact := match getFile files relativePath with
    | some b => some b
    | none => getFile files filenameOnly
  match exact with
  | some b => some b
  | none =>
    if strEndsWith filenameOnly ".onnx" then
      let filenames := files.map (fun p => p.1)
      let isEncoder := strIncludes (jsToLower filenameOnly) "encoder"
      let isDecoder := strIncludes (jsToLower filenameOnly) "decoder"
                        || strIncludes (jsToLower filenameOnly) "merged"
      let fuzzy :=
        if isEncoder then
          match filenames.find? (fun k => strIncludes (jsToLower k) "encoder" && strEndsWith k ".onnx") with
          | some k => getFile files k
          | none => none
        else if isDecoder then
          let m := match filenames.find? (fun k => strIncludes (jsToLower k) "decoder" && strEndsWith k ".onnx") with
            | some k => some k
            | none => filenames.find? (fun k => strIncludes (jsToLower k) "merged" && strEndsWith k ".onnx")
          match m with
          | some k => getFile files k
          | none => none
        else none
      match fuzzy with
      | some b => some b
      | none =>
        let onnxFiles := filenames.filter (fun k => strEndsWith k ".onnx")
        match onnxFiles with
        | [k] => getFile files k
        | _ => none
    else none

/-- Outcome of the intercepted `window.fetch`: either an immediately built
response, or the request is forwarded unchanged to the original fetch. -/
inductive FetchOutcome where
  | passthrough
  | response (r : HttpResponse)
deriving DecidableEq, Repr

/-- The main-module `window.fetch` interceptor: requests whose URL contains
`/custom-model/` are answered from the published asset map
(`window.__CUSTOM_MODEL_FILES__`, modelled as `Option Files`) when that map
exists and is nonempty — 200 with the blob on a hit, plain-text 404 naming the
missing file on a miss; every other request (and every request while the map
is absent or empty) goes to the original fetch. -/
def interceptedFetch (files : Option Files) (url : String) : FetchOutcome :=
  if strIncludes url customModelSeg then
    let cleanUrl := jsFirst (jsSplit url "?")
    let filenameWithPossiblyPath := jsLast (jsSplit cleanUrl customModelSeg)
    let filenameOnly := jsLast (jsSplit filenameWithPossiblyPath "/")
    match files with
    | some fs =>
      if fs.length > 0 then
        match fetchResolve fs filenameWithPossiblyPath with
        | some b =>
            .response { status := 200
                        ctype := if b.ctype ≠ "" then b.ctype
                                 else if strEndsWith filenameOnly ".json" then "application/json"
                                 else "application/octet-stream"
                        body := b.data }
        | none =>
            .response { status := 404, ctype := "text/plain"
                        body := "File not found: " ++ filenameOnly }
      else .passthrough
    | none => .passthrough
  else .passthrough

/-- The fields of a parsed `config.json` that `parseConfigs` reads:
`config.architectures` (missing field modelled as `[]`), `config.model_type`
(missing modelled as `none`), and the truthiness of
`config.is_encoder_decoder`. -/
structure ConfigData where
  architectures : List String
  modelType : Option String
  isEncoderDecoderFlag : Bool
deriving DecidableEq, Repr

/-- The fields of a parsed tokenizer config that `parseConfigs` reads. -/
structure TokenizerData where
  tokenizerClass : Option String
  modelType : Option String
deriving DecidableEq, Repr

/-- The derived model-config record built by `parseConfigs`
(`setModelConfig({...})`). -/
structure ModelManifest where
  arch : String
  modelType : String
  tokenizer : String
  isEncoderDecoder : Bool
  requiredWeights : List String
  hasGenerationConfig : Bool
  hasQuantizeConfig : Bool
deriving DecidableEq, Repr

/-- JS `a || b` on possibly-missing strings: a missing or empty string falls
through to the default. -/
def strOr (a : Option String) (b : String) : String :=
  match a with
  | some s => if s = "" then b else s
  | none => b

/-- The `parseConfigs` body of the `useEffect [customModelFiles, modelSource]`
hook.  `JSON.parse` of the two documents is external library behavior and is
passed in as the functions `parseConfig` / `parseTok` (`none` models a parse
that throws).  The result is the new value of the `modelConfig` state:

* no `config.json` in the bag — early `return`, so the previous state `prev`
  is kept unchanged;
* `config.json` present but `JSON.parse` throws — the `catch` logs and sets
  nothing, so `prev` is kept unchanged;
* otherwise the manifest is rebuilt entirely from the current bag: a failed
  tokenizer-config parse degrades to the `"Standard"` sentinel inside the
  inner `try`. -/
def parseConfigs (parseConfig : String → Option ConfigData)
    (parseTok : String → Option TokenizerData)
    (prev : Option ModelManifest) (customModelFiles : Files) : Option ModelManifest :=
  match getFile customModelFiles "config.json" with
  | none => prev
  | some configBlob =>
    match parseConfig configBlob.data with
    | none => prev
    | some config =>
      let tokenizerConfigBlob :=
        (getFile customModelFiles "tokenizer_config.json").orElse
          (fun _ => getFile customModelFiles "tokenizer.json")
      let tokenizerInfo :=
        match tokenizerConfigBlob with
        | none => "Standard"
        | some tb =>
          match parseTok tb.data with
          | none => "Standard"
          | some tData => strOr tData.tokenizerClass (strOr tData.modelType "Custom")
      let arch := strOr config.architectures.head? "Unknown"
      let modelType := strOr config.modelType "Unknown"
      let isEncDec := strIncludes arch "ConditionalGeneration" || strIncludes arch "MTModel"
                        || strIncludes arch "MarianMT" || config.isEncoderDecoderFlag
      let weights := if isEncDec then ["encoder_model.onnx", "decoder_model_merged.onnx"]
                     else ["model.onnx"]
      some { arch := arch
             modelType := modelType
             tokenizer := tokenizerInfo
             isEncoderDecoder := isEncDec
             requiredWeights := weights
             hasGenerationConfig := (getFile customModelFiles "generation_config.json").isSome
             hasQuantizeConfig := (getFile customModelFiles "quantize_config.json").isSome }

/-- The whole `useEffect [customModelFiles, modelSource]` hook as a transition
on the `modelConfig` state: reset to `null` when the source is not `custom` or
the bag is empty, otherwise run `parseConfigs`. -/
def modelConfigEffect (parseConfig : String → Option ConfigData)
    (parseTok : String → Option TokenizerData)
    (prev : Option ModelManifest) (modelSource : String) (customModelFiles : Files) :
    Option ModelManifest :=
  if modelSource ≠ "custom" || customModelFiles.length = 0 then none
  else parseConfigs parseConfig parseTok prev customModelFiles

/-- The stale-entry purge inside `loadOfflineModel` applied to one cache: for
every key of the snapshot, entries whose URL contains `/custom-model/` are
deleted. -/
def purgeCustomModelEntries (c : Cache) : Cache :=
  (c.map (fun p => p.1)).foldl
    (fun acc url => if strIncludes url customModelSeg then cacheDelete acc url else acc) c

/-- The stale-entry purge inside `loadOfflineModel` over the whole Cache
Storage (a name-keyed set of caches): only caches whose name contains
`transformers` are purged of their `/custom-model/` entries; every other cache
is left untouched. -/
def clearTransformersCaches (storage : List (String × Cache)) : List (String × Cache) :=
  storage.map (fun nc =>
    if strIncludes nc.1 "transformers" then (nc.1, purgeCustomModelEntries nc.2) else nc)

/-- The inputs `loadOfflineModel` consults before any pipeline work:
component state (`modelSource`, `remoteModelId`, `customModelFiles`,
`loadedModelId`, `isModelLoading`, whether `translatorRef.current` is set),
the optional `overrideFiles` argument, and the browser environment
(service-worker support, and whether a service worker controls the page). -/
structure LoadArgs where
  modelSource : String
  remoteModelId : String
  customModelFiles : Files
  overrideFiles : Option Files
  translatorCurrent : Bool
  loadedModelId : Option String
  isModelLoading : Bool
  swSupported : Bool
  swControlled : Bool
deriving DecidableEq, Repr

/-- How a `loadOfflineModel` call can leave its guard phase (everything before
the cache purge / cache write / `pipeline(...)` construction):

* `alreadyLoaded` — same model already loaded, `return true`;
* `busy` — a load is in flight, `return false`;
* `swUnsupported` — custom source without Service Worker support, `throw`;
* `swNotControlling` — custom source, worker registered but not controlling:
  `setIsModelLoading(false)`, `setModelStatus(null)`, `setErrorMessage(msg)`,
  `return false`;
* `proceed modelId` — fall through to the purge, cache write and
  `pipeline('translation', modelId, ...)` construction. -/
inductive LoadPreOutcome where
  | alreadyLoaded
  | busy
  | swUnsupported (msg : String)
  | swNotControlling (msg : String)
  | proceed (modelId : String)
deriving DecidableEq, Repr

/-- Whether the guard phase ends in `return false`. -/
def LoadPreOutcome.returnedFalse : LoadPreOutcome → Bool
  | .busy => true
  | .swNotControlling _ => true
  | _ => false

/-- The message passed to `setErrorMessage` by the guard phase, if any. -/
def LoadPreOutcome.errMsg : LoadPreOutcome → Option String
  | .swNotControlling m => some m
  | _ => none

/-- Whether the guard phase falls through to `pipeline(...)` construction. -/
def LoadPreOutcome.constructsPipeline : LoadPreOutcome → Bool
  | .proceed _ => true
  | _ => false

/-- The guard phase of `loadOfflineModel` (module lines 473–530): the
early-return checks, then for the `custom` source the Service Worker support
and controller checks, reaching `proceed` only with a controlling worker. -/
def loadOfflineModelPre (a : LoadArgs) : LoadPreOutcome :=
  let targetModelId := if a.modelSource = "remote" then a.remoteModelId else "custom-model"
  if a.translatorCurrent ∧ a.loadedModelId = some targetModelId ∧ a.overrideFiles = none then
    .alreadyLoaded
  else if a.isModelLoading then .busy
  else if a.modelSource = "remote" then .proceed a.remoteModelId
  else if a.modelSource = "custom" then
    if ¬ a.swSupported then
      .swUnsupported "Browser tidak mendukung Service Worker. Gunakan Chrome/Edge modern."
    else if ¬ a.swControlled then
      .swNotControlling
        "Service Worker belum siap mengontrol halaman. Silakan refresh halaman (Ctrl+R) dan coba lagi."
    else .proceed "custom-model"
  else .proceed ""

/-- `vite.config.ts` `customModelNotFoundPlugin` middleware: strips the query
suffix and answers a plain-text 404 for `/custom-model` and everything below
`/custom-model/`; all other requests fall through to the next middleware
(`none`, which for unknown paths would be Vite's SPA fallback). -/
def customModelNotFoundMiddleware (rawUrl : String) : Option HttpResponse :=
  let url := jsFirst (jsSplit rawUrl "?")
  if url = "/custom-model" || strStartsWith url "/custom-model/" then
    some { status := 404, ctype := "text/plain", body := "404 Not Found: " ++ url }
  else none

/-! ### List-level transfer lemmas

The service worker applies its string checks to full cache URLs
(`'/custom-model-files/' + name`), while the in-page interceptor applies them
to bare names.  The lemmas below let the checks cross that boundary: the URL
namespace ends in `'/'`, a character none of the checked patterns contain. -/

theorem last_mem_of_append_eq {α : Type} {s r a' : List α} {c : α}
    (h : s ++ r = a' ++ [c]) (hr : r ≠ []) : c ∈ r := by
  rcases List.eq_nil_or_concat r with h0 | ⟨r₀, x, rfl⟩
  · exact absurd h0 hr
  · have h' : (s ++ r₀) ++ [x] = a' ++ [c] := by
      simpa [List.concat_eq_append, List.append_assoc] using h
    have hlen : (s ++ r₀).length = a'.length := by
      have h5 := congrArg List.length h'
      simp only [List.length_append, List.length_singleton] at h5 ⊢
      omega
    have hx : [x] = [c] := List.append_inj_right h' hlen
    simp only [List.cons.injEq, and_true] at hx
    simp [List.concat_eq_append, hx]

theorem suffix_append_of_last {α : Type} {a' pat b : List α} {c : α}
    (hc : c ∉ pat) :
    pat <:+ ((a' ++ [c]) ++ b) ↔ pat <:+ b := by
  constructor
  · rintro ⟨t, ht⟩
    by_cases h : (a' ++ [c]).length ≤ t.length
    · have hta : t <+: (a' ++ [c]) ++ b := ⟨pat, ht⟩
      have hat : (a' ++ [c]) <+: t :=
        List.prefix_of_prefix_length_le (List.prefix_append _ b) hta h
      obtain ⟨t', rfl⟩ := hat
      refine ⟨t', ?_⟩
      have h2 : (a' ++ [c]) ++ (t' ++ pat) = (a' ++ [c]) ++ b := by
        simpa [List.append_assoc] using ht
      exact List.append_cancel_left h2
    · exfalso
      push_neg at h
      have hta : t <+: (a' ++ [c]) ++ b := ⟨pat, ht⟩
      have htp : t <+: (a' ++ [c]) :=
        List.prefix_of_prefix_length_le hta (List.prefix_append _ b) h.le
      obtain ⟨r, hr⟩ := htp
      have hrne : r ≠ [] := by
        intro h0
        subst h0
        rw [List.append_nil] at hr
        subst hr
        exact absurd rfl h.ne
      have hap : (a' ++ [c]) <+: t ++ pat := ht ▸ List.prefix_append _ b
      rw [← hr] at hap
      have hrp : r <+: pat := (List.prefix_append_right_inj t).mp hap
      exact hc (hrp.subset (last_mem_of_append_eq hr hrne))
  · intro h
    exact h.trans (List.suffix_append _ b)

theorem infix_append_of_last {α : Type} {a' pat b : List α} {c : α}
    (hc : c ∉ pat) :
    pat <:+: ((a' ++ [c]) ++ b) ↔ pat <:+: (a' ++ [c]) ∨ pat <:+: b := by
  constructor
  · rintro ⟨s, t, hst⟩
    by_cases h1 : s.length + pat.length ≤ (a' ++ [c]).length
    · left
      have hsp : (s ++ pat) <+: (a' ++ [c]) ++ b := ⟨t, hst⟩
      have hsp2 : (s ++ pat) <+: (a' ++ [c]) :=
        List.prefix_of_prefix_length_le hsp (List.prefix_append _ b)
          (by simpa [List.length_append] using h1)
      have hpin : pat <:+: s ++ pat := ⟨s, [], by simp⟩
      exact hpin.trans hsp2.isInfix
    · by_cases h2 : (a' ++ [c]).length ≤ s.length
      · right
        have hs : s <+: (a' ++ [c]) ++ b := ⟨pat ++ t, by simpa [List.append_assoc] using hst⟩
        have has : (a' ++ [c]) <+: s :=
          List.prefix_of_prefix_length_le (List.prefix_append _ b) hs h2
        obtain ⟨s', rfl⟩ := has
        refine ⟨s', t, ?_⟩
        have h3 : (a' ++ [c]) ++ (s' ++ pat ++ t) = (a' ++ [c]) ++ b := by
          simpa [List.append_assoc] using hst
        exact List.append_cancel_left h3
      · exfalso
        push_neg at h1 h2
        have hs : s <+: (a' ++ [c]) ++ b := ⟨pat ++ t, by simpa [List.append_assoc] using hst⟩
        have hsa : s <+: (a' ++ [c]) :=
          List.prefix_of_prefix_length_le hs (List.prefix_append _ b) h2.le
        obtain ⟨r, hr⟩ := hsa
        have hrne : r ≠ [] := by
          intro h0
          subst h0
          rw [List.append_nil] at hr
          subst hr
          exact absurd rfl h2.ne
        have hasp : (a' ++ [c]) <+: s ++ pat := by
          refine List.prefix_of_prefix_length_le (List.prefix_append _ b) ⟨t, hst⟩ ?_
          simp only [List.length_append] at h1 ⊢
          omega
        rw [← hr] at hasp
        have hrp : r <+: pat := (List.prefix_append_right_inj s).mp hasp
        exact hc (hrp.subset (last_mem_of_append_eq hr hrne))
  · rintro (h | h)
    · exact h.trans (List.prefix_append _ b).isInfix
    · exact h.trans (List.suffix_append _ b).isInfix

theorem cacheFilesPfx_data_eq : cacheFilesPfx.data = "/custom-model-files".data ++ ['/'] := by
  decide

theorem jsToLower_append (s t : String) : jsToLower (s ++ t) = jsToLower s ++ jsToLower t := by
  refine String.ext ?_
  show ((s ++ t).data.map Char.toLower)
      = ((⟨s.data.map Char.toLower⟩ : String) ++ (⟨t.data.map Char.toLower⟩ : String)).data
  rw [String.data_append, String.data_append, List.map_append]

theorem jsToLower_cacheFilesPfx_data :
    (jsToLower cacheFilesPfx).data = "/custom-model-files".data.map Char.toLower ++ ['/'] := by
  decide

theorem strEndsWith_cacheFilesPfx (n pat : String) (hc : '/' ∉ pat.data) :
    strEndsWith (cacheFilesPfx ++ n) pat = strEndsWith n pat := by
  unfold strEndsWith
  apply decide_eq_decide.mpr
  rw [String.data_append, cacheFilesPfx_data_eq]
  exact suffix_append_of_last hc

theorem strIncludes_lower_cacheFilesPfx (n pat : String) (hc : '/' ∉ pat.data)
    (hp : strIncludes (jsToLower cacheFilesPfx) pat = false) :
    strIncludes (jsToLower (cacheFilesPfx ++ n)) pat = strIncludes (jsToLower n) pat := by
  unfold strIncludes at hp ⊢
  apply decide_eq_decide.mpr
  rw [jsToLower_append, String.data_append, jsToLower_cacheFilesPfx_data]
  rw [infix_append_of_last hc]
  have hp' : ¬ pat.data <:+: (jsToLower cacheFilesPfx).data := of_decide_eq_false hp
  rw [jsToLower_cacheFilesPfx_data] at hp'
  constructor
  · rintro (h | h)
    · exact absurd h hp'
    · exact h
  · exact Or.inr

theorem cacheFilesPfx_append_inj {a b : String} :
    cacheFilesPfx ++ a = cacheFilesPfx ++ b ↔ a = b := by
  constructor
  · intro h
    have h2 := congrArg String.data h
    rw [String.data_append, String.data_append] at h2
    exact String.ext (List.append_cancel_left h2)
  · intro h
    rw [h]

/-! ### Association-list lemmas for the bag, the cache image and the sync -/

theorem find?_congr_pred {α : Type} {p q : α → Bool} (l : List α) (h : ∀ x, p x = q x) :
    l.find? p = l.find? q := by
  induction l with
  | nil => rfl
  | cons a l ih => rw [List.find?_cons, List.find?_cons, h a, ih]

theorem find?_filter_of_imp {α : Type} {p q : α → Bool} (l : List α)
    (h : ∀ a, p a = true → q a = true) : (l.filter q).find? p = l.find? p := by
  induction l with
  | nil => rfl
  | cons a l ih =>
    by_cases hq : q a = true
    · rw [List.filter_cons_of_pos hq, List.find?_cons, List.find?_cons, ih]
    · have hp : p a = false := by
        cases hpa : p a with
        | false => rfl
        | true => exact absurd (h a hpa) hq
      rw [List.filter_cons_of_neg hq, List.find?_cons, hp, ih]

theorem getFile_eq_of_mem {files : Files} {n : String} {b : Blob}
    (hnd : (files.map (fun p => p.1)).Nodup) (hmem : (n, b) ∈ files) :
    getFile files n = some b := by
  induction files with
  | nil => cases hmem
  | cons q fs ih =>
    rw [List.map_cons, List.nodup_cons] at hnd
    rcases List.mem_cons.mp hmem with heq | h
    · subst heq
      unfold getFile
      rw [List.find?_cons]
      simp
    · have hne : (decide (q.1 = n)) = false := by
        refine decide_eq_false ?_
        intro he
        exact hnd.1 (he ▸ List.mem_map.mpr ⟨(n, b), h, rfl⟩)
      unfold getFile at ih ⊢
      rw [List.find?_cons, hne]
      exact ih hnd.2 h

theorem cacheMatch_syncImage (files : Files) (rel : String) :
    cacheMatch (syncImage files) (cacheFilesPfx ++ rel) = getFile files rel := by
  unfold cacheMatch syncImage getFile
  rw [List.find?_map, Option.map_map]
  rw [find?_congr_pred files (p := (fun p => decide (p.1 = cacheFilesPfx ++ rel)) ∘
        (fun p => (cacheFilesPfx ++ p.1, p.2))) (q := fun p => decide (p.1 = rel))
      (fun p => decide_eq_decide.mpr cacheFilesPfx_append_inj)]
  rfl

theorem keys_syncImage (files : Files) :
    (syncImage files).map (fun p => p.1) = files.map (fun p => cacheFilesPfx ++ p.1) := by
  unfold syncImage
  rw [List.map_map]
  rfl

theorem cacheMatch_cachePut_self (c : Cache) (u : String) (b : Blob) :
    cacheMatch (cachePut c u b) u = some b := by
  unfold cacheMatch cachePut
  rw [List.find?_append]
  have h1 : (c.filter (fun p => p.1 ≠ u)).find? (fun p => p.1 = u) = none := by
    rw [List.find?_eq_none]
    intro p hp
    have h2 := List.of_mem_filter hp
    simp only [decide_not, Bool.not_eq_true', decide_eq_false_iff_not] at h2
    simpa using h2
  rw [h1]
  simp [List.find?_cons]

theorem cacheMatch_cachePut_ne {u v : String} (c : Cache) (b : Blob) (h : u ≠ v) :
    cacheMatch (cachePut c v b) u = cacheMatch c u := by
  unfold cacheMatch cachePut
  rw [List.find?_append]
  have h2 : List.find? (fun p => p.1 = u) [(v, b)] = none := by
    rw [List.find?_eq_none]
    intro p hp
    simp only [List.mem_singleton] at hp
    subst hp
    simpa using fun he => h he.symm
  rw [h2]
  rw [find?_filter_of_imp c (p := fun p => decide (p.1 = u)) (q := fun p => decide (p.1 ≠ v))
    (fun p hp => by
      simp only [decide_eq_true_eq] at hp
      simpa [hp] using fun he => h (hp ▸ he))]
  cases c.find? (fun p => decide (p.1 = u)) <;> rfl

theorem syncCache_cons (c : Cache) (p : String × Blob) (fs : Files) :
    syncCache c (p :: fs) = syncCache (cachePut c (cacheFilesPfx ++ p.1) p.2) fs := rfl

theorem cacheMatch_syncCache_of_not_key (c : Cache) (files : Files) (u : String)
    (h : ∀ p ∈ files, cacheFilesPfx ++ p.1 ≠ u) :
    cacheMatch (syncCache c files) u = cacheMatch c u := by
  induction files generalizing c with
  | nil => rfl
  | cons q fs ih =>
    rw [syncCache_cons, ih _ (fun p hp => h p (List.mem_cons_of_mem q hp))]
    exact cacheMatch_cachePut_ne c q.2 (fun he => h q (List.mem_cons_self q fs) he.symm)

theorem cacheMatch_syncCache_of_mem (c : Cache) {files : Files} {n : String} {b : Blob}
    (hnd : (files.map (fun p => p.1)).Nodup) (hmem : (n, b) ∈ files) :
    cacheMatch (syncCache c files) (cacheFilesPfx ++ n) = some b := by
  induction files generalizing c with
  | nil => cases hmem
  | cons q fs ih =>
    rw [List.map_cons, List.nodup_cons] at hnd
    rcases List.mem_cons.mp hmem with heq | h
    · subst heq
      rw [syncCache_cons]
      have hnk : ∀ p ∈ fs, cacheFilesPfx ++ p.1 ≠ cacheFilesPfx ++ n := by
        intro p hp he
        exact hnd.1 (cacheFilesPfx_append_inj.mp he ▸ List.mem_map.mpr ⟨p, hp, rfl⟩)
      rw [cacheMatch_syncCache_of_not_key _ fs _ hnk]
      exact cacheMatch_cachePut_self c _ _
    · rw [syncCache_cons]
      exact ih _ hnd.2 h

theorem mem_syncCache_of_old {c : Cache} {files : Files} {q : String × Blob}
    (hq : q ∈ c) (h : ∀ p ∈ files, q.1 ≠ cacheFilesPfx ++ p.1) : q ∈ syncCache c files := by
  induction files generalizing c with
  | nil => exact hq
  | cons r fs ih =>
    rw [syncCache_cons]
    refine ih ?_ (fun p hp => h p (List.mem_cons_of_mem r hp))
    unfold cachePut
    refine List.mem_append.mpr (Or.inl (List.mem_filter.mpr ⟨hq, ?_⟩))
    simpa using h r (List.mem_cons_self r fs)

theorem foldl_condDelete_eq_filter (P : String → Bool) (us : List String) (c : Cache) :
    us.foldl (fun acc u => if P u then cacheDelete acc u else acc) c
      = c.filter (fun q => !(P q.1 && decide (q.1 ∈ us))) := by
  induction us generalizing c with
  | nil => simp
  | cons u us ih =>
    rw [List.foldl_cons, ih]
    by_cases hP : P u = true
    · simp only [hP, if_true]
      unfold cacheDelete
      rw [List.filter_filter]
      apply List.filter_congr
      intro q _
      by_cases hqu : q.1 = u
      · simp [hqu, hP]
      · simp [hqu, List.mem_cons]
    · simp only [hP, if_false, Bool.false_eq_true]
      apply List.filter_congr
      intro q _
      by_cases hqu : q.1 = u
      · have hPq : P q.1 = false := by
          rw [hqu]
          exact (Bool.not_eq_true _).mp hP
        simp [hPq]
      · simp [hqu, List.mem_cons]

theorem purgeCustomModelEntries_eq_filter (c : Cache) :
    purgeCustomModelEntries c = c.filter (fun q => !(strIncludes q.1 customModelSeg)) := by
  unfold purgeCustomModelEntries
  rw [foldl_condDelete_eq_filter]
  apply List.filter_congr
  intro q hq
  have hmem : q.1 ∈ c.map (fun p => p.1) := List.mem_map.mpr ⟨q, hq, rfl⟩
  simp [hmem]

theorem keys_find?_syncImage (files : Files) (p : String → Bool) :
    ((syncImage files).map (fun q => q.1)).find? p
      = (files.find? (fun q => p (cacheFilesPfx ++ q.1))).map (fun q => cacheFilesPfx ++ q.1) := by
  rw [keys_syncImage, List.find?_map]
  rfl

theorem keys_filter_syncImage (files : Files) (p : String → Bool) :
    ((syncImage files).map (fun q => q.1)).filter p
      = (files.filter (fun q => p (cacheFilesPfx ++ q.1))).map (fun q => cacheFilesPfx ++ q.1) := by
  rw [keys_syncImage, List.filter_map]
  rfl

theorem onnxUrl_transfer (n : String) :
    strEndsWith (cacheFilesPfx ++ n) ".onnx" = strEndsWith n ".onnx" :=
  strEndsWith_cacheFilesPfx n ".onnx" (by decide)

theorem encUrl_transfer (n : String) :
    strIncludes (jsToLower (cacheFilesPfx ++ n)) "encoder" = strIncludes (jsToLower n) "encoder" :=
  strIncludes_lower_cacheFilesPfx n "encoder" (by decide) (by decide)

theorem decUrl_transfer (n : String) :
    strIncludes (jsToLower (cacheFilesPfx ++ n)) "decoder" = strIncludes (jsToLower n) "decoder" :=
  strIncludes_lower_cacheFilesPfx n "decoder" (by decide) (by decide)

theorem mergUrl_transfer (n : String) :
    strIncludes (jsToLower (cacheFilesPfx ++ n)) "merged" = strIncludes (jsToLower n) "merged" :=
  strIncludes_lower_cacheFilesPfx n "merged" (by decide) (by decide)

/-! ### Facts about a bag holding exactly one `.onnx` file -/

theorem onnx_name_unique {files : Files} {n₀ : String} {b₀ : Blob}
    (hfil : files.filter (fun p => strEndsWith p.1 ".onnx") = [(n₀, b₀)])
    {k : String} (hk : k ∈ files.map (fun p => p.1)) (hkon : strEndsWith k ".onnx" = true) :
    k = n₀ := by
  obtain ⟨p, hp, rfl⟩ := List.mem_map.mp hk
  have h1 : p ∈ files.filter (fun p => strEndsWith p.1 ".onnx") :=
    List.mem_filter.mpr ⟨hp, hkon⟩
  rw [hfil, List.mem_singleton] at h1
  rw [h1]

theorem onnx_single_mem {files : Files} {n₀ : String} {b₀ : Blob}
    (hfil : files.filter (fun p => strEndsWith p.1 ".onnx") = [(n₀, b₀)]) :
    (n₀, b₀) ∈ files ∧ strEndsWith n₀ ".onnx" = true := by
  have h1 : (n₀, b₀) ∈ files.filter (fun p => strEndsWith p.1 ".onnx") := by
    rw [hfil]
    exact List.mem_singleton_self _
  have h2 := List.of_mem_filter h1
  exact ⟨List.mem_of_mem_filter h1, h2⟩

theorem onnx_filter_names {files : Files} {n₀ : String} {b₀ : Blob}
    (hfil : files.filter (fun p => strEndsWith p.1 ".onnx") = [(n₀, b₀)]) :
    (files.map (fun p => p.1)).filter (fun k => strEndsWith k ".onnx") = [n₀] := by
  rw [List.filter_map]
  have h1 : files.filter ((fun k => strEndsWith k ".onnx") ∘ fun p => p.1)
      = files.filter (fun p => strEndsWith p.1 ".onnx") := rfl
  rw [h1, hfil]
  rfl

theorem fetchResolve_single_onnx {files : Files} {n₀ : String} {b₀ : Blob} {rel : String}
    (hnd : (files.map (fun p => p.1)).Nodup)
    (hfil : files.filter (fun p => strEndsWith p.1 ".onnx") = [(n₀, b₀)])
    (hon : strEndsWith (jsLast (jsSplit rel "/")) ".onnx" = true)
    (h1 : getFile files rel = none)
    (h2 : getFile files (jsLast (jsSplit rel "/")) = none) :
    fetchResolve files rel = some b₀ := by
  have hget : getFile files n₀ = some b₀ := getFile_eq_of_mem hnd (onnx_single_mem hfil).1
  unfold fetchResolve
  simp only [h1, h2, hon, if_true]
  by_cases hE : strIncludes (jsToLower (jsLast (jsSplit rel "/"))) "encoder" = true
  · simp only [hE, if_true]
    cases hfind : List.find? (fun k => strIncludes (jsToLower k) "encoder" && strEndsWith k ".onnx")
        (files.map (fun p => p.1)) with
    | none =>
      simp only [hfind, onnx_filter_names hfil, hget]
    | some k =>
      have hkon : strEndsWith k ".onnx" = true := by
        have h3 := List.find?_some hfind
        exact (Bool.and_eq_true _ _).mp h3 |>.2
      have hkn : k = n₀ := onnx_name_unique hfil (List.mem_of_find?_eq_some hfind) hkon
      simp only [hfind, hkn, hget]
  · simp only [hE, if_false]
    by_cases hD : (strIncludes (jsToLower (jsLast (jsSplit rel "/"))) "decoder"
        || strIncludes (jsToLower (jsLast (jsSplit rel "/"))) "merged") = true
    · simp only [hD, if_true]
      cases hfd : List.find? (fun k => strIncludes (jsToLower k) "decoder" && strEndsWith k ".onnx")
          (files.map (fun p => p.1)) with
      | some k =>
        have hkon : strEndsWith k ".onnx" = true := by
          have h3 := List.find?_some hfd
          exact (Bool.and_eq_true _ _).mp h3 |>.2
        have hkn : k = n₀ := onnx_name_unique hfil (List.mem_of_find?_eq_some hfd) hkon
        simp [hfd, hkn, hget]
      | none =>
        cases hfm : List.find? (fun k => strIncludes (jsToLower k) "merged" && strEndsWith k ".onnx")
            (files.map (fun p => p.1)) with
        | some k =>
          have hkon : strEndsWith k ".onnx" = true := by
            have h3 := List.find?_some hfm
            exact (Bool.and_eq_true _ _).mp h3 |>.2
          have hkn : k = n₀ := onnx_name_unique hfil (List.mem_of_find?_eq_some hfm) hkon
          simp [hfd, hfm, hkn, hget]
        | none =>
          simp [hfd, hfm, onnx_filter_names hfil, hget]
    · simp [hD, onnx_filter_names hfil, hget]

theorem swResolve_single_onnx {files : Files} {n₀ : String} {b₀ : Blob} {rel : String}
    (hnd : (files.map (fun p => p.1)).Nodup)
    (hfil : files.filter (fun p => strEndsWith p.1 ".onnx") = [(n₀, b₀)])
    (hon : strEndsWith (jsLast (jsSplit rel "/")) ".onnx" = true)
    (h1 : getFile files rel = none)
    (h2 : getFile files (jsLast (jsSplit rel "/")) = none) :
    swResolve (syncImage files) rel = some b₀ := by
  have hget : getFile files n₀ = some b₀ := getFile_eq_of_mem hnd (onnx_single_mem hfil).1
  have hne : ¬ jsLast (jsSplit rel "/") = "" := by
    intro h0
    rw [h0] at hon
    exact absurd hon (by decide)
  have hpredE : ∀ q : String × Blob,
      (strIncludes (jsToLower (cacheFilesPfx ++ q.1)) "encoder"
        && strEndsWith (cacheFilesPfx ++ q.1) ".onnx")
      = (strIncludes (jsToLower q.1) "encoder" && strEndsWith q.1 ".onnx") := fun q => by
    rw [encUrl_transfer, onnxUrl_transfer]
  have hpredD : ∀ q : String × Blob,
      ((strIncludes (jsToLower (cacheFilesPfx ++ q.1)) "decoder"
          || strIncludes (jsToLower (cacheFilesPfx ++ q.1)) "merged")
        && strEndsWith (cacheFilesPfx ++ q.1) ".onnx")
      = ((strIncludes (jsToLower q.1) "decoder" || strIncludes (jsToLower q.1) "merged")
        && strEndsWith q.1 ".onnx") := fun q => by
    rw [decUrl_transfer, mergUrl_transfer, onnxUrl_transfer]
  have hfilkeys : ((syncImage files).map (fun q => q.1)).filter (fun k => strEndsWith k ".onnx")
      = [cacheFilesPfx ++ n₀] := by
    rw [keys_filter_syncImage, List.filter_congr (fun q _ => onnxUrl_transfer q.1), hfil]
    rfl
  unfold swResolve
  simp only [hne, if_false, cacheMatch_syncImage, h1, h2, hon, if_true]
  by_cases hE : strIncludes (jsToLower (jsLast (jsSplit rel "/"))) "encoder" = true
  · simp only [hE, if_true, keys_find?_syncImage,
      find?_congr_pred files (fun q => hpredE q)]
    cases hfind : files.find?
        (fun q => strIncludes (jsToLower q.1) "encoder" && strEndsWith q.1 ".onnx") with
    | none =>
      simp [hfind, hfilkeys, cacheMatch_syncImage, hget]
    | some q =>
      have hqon : strEndsWith q.1 ".onnx" = true := by
        have h3 := List.find?_some hfind
        exact (Bool.and_eq_true _ _).mp h3 |>.2
      have hqn : q.1 = n₀ :=
        onnx_name_unique hfil
          (List.mem_map.mpr ⟨q, List.mem_of_find?_eq_some hfind, rfl⟩) hqon
      simp [hfind, cacheMatch_syncImage, hqn, hget]
  · simp only [hE, if_false]
    by_cases hD : (strIncludes (jsToLower (jsLast (jsSplit rel "/"))) "decoder"
        || strIncludes (jsToLower (jsLast (jsSplit rel "/"))) "merged") = true
    · simp only [hD, if_true, keys_find?_syncImage,
        find?_congr_pred files (fun q => hpredD q)]
      cases hfind : files.find? (fun q =>
          (strIncludes (jsToLower q.1) "decoder" || strIncludes (jsToLower q.1) "merged")
            && strEndsWith q.1 ".onnx") with
      | none =>
        simp [hfind, hfilkeys, cacheMatch_syncImage, hget]
      | some q =>
        have hqon : strEndsWith q.1 ".onnx" = true := by
          have h3 := List.find?_some hfind
          exact (Bool.and_eq_true _ _).mp h3 |>.2
        have hqn : q.1 = n₀ :=
          onnx_name_unique hfil
            (List.mem_map.mpr ⟨q, List.mem_of_find?_eq_some hfind, rfl⟩) hqon
        simp [hfind, cacheMatch_syncImage, hqn, hget]
    · simp [hD, hfilkeys, cacheMatch_syncImage, hget]

theorem getFile_eq_some_elim {files : Files} {rel : String} {blob : Blob}
    (h : getFile files rel = some blob) :
    ∃ p ∈ files, p.1 = rel ∧ p.2 = blob := by
  unfold getFile at h
  obtain ⟨p, hfind, hpb⟩ := Option.map_eq_some'.mp h
  refine ⟨p, List.mem_of_find?_eq_some hfind, ?_, hpb⟩
  simpa using List.find?_some hfind

/-! ### The last piece of a split is a suffix of the split string

Both responders judge the fuzzy-tier markers on the request basename (the
last `/`-piece of the normalized path).  To also cover the exact-match tiers
for path-ful requests, we need that this basename is a suffix — hence a
substring — of the full requested name. -/

theorem jsSplitAux_ne_nil (sep : List Char) (fuel : Nat) (l : List Char) :
    jsSplitAux sep fuel l ≠ [] := by
  cases fuel with
  | zero => cases l <;> simp [jsSplitAux]
  | succ fuel =>
    cases l with
    | nil => simp [jsSplitAux]
    | cons c rest =>
      by_cases hp : sep.isPrefixOf (c :: rest) = true
      · rw [jsSplitAux, if_pos hp]
        simp
      · rw [jsSplitAux, if_neg hp]
        cases hX : jsSplitAux sep fuel rest with
        | nil => simp
        | cons h₀ t => simp

theorem jsSplitAux_getLastD_suffix (sep : List Char) :
    ∀ (fuel : Nat) (l : List Char),
      ((jsSplitAux sep fuel l).getLastD [] <:+ l)
      ∧ (∀ h, jsSplitAux sep fuel l = [h] → h = l) := by
  intro fuel
  induction fuel with
  | zero =>
    intro l
    cases l with
    | nil =>
      refine ⟨by simp [jsSplitAux], ?_⟩
      intro h hh
      simp [jsSplitAux] at hh
      exact hh
    | cons c rest =>
      refine ⟨by simp [jsSplitAux], ?_⟩
      intro h hh
      simp [jsSplitAux] at hh
      exact hh.symm
  | succ fuel ih =>
    intro l
    cases l with
    | nil =>
      refine ⟨by simp [jsSplitAux], ?_⟩
      intro h hh
      simp [jsSplitAux] at hh
      exact hh
    | cons c rest =>
      by_cases hp : sep.isPrefixOf (c :: rest) = true
      · have hres : jsSplitAux sep (fuel + 1) (c :: rest)
            = [] :: jsSplitAux sep fuel (rest.drop (sep.length - 1)) := by
          rw [jsSplitAux, if_pos hp]
        refine ⟨?_, ?_⟩
        · rw [hres, List.getLastD_cons]
          exact ((ih _).1).trans ((List.drop_suffix _ _).trans (List.suffix_cons c rest))
        · intro h hh
          rw [hres] at hh
          injection hh with h1 h2
          exact absurd h2 (jsSplitAux_ne_nil sep fuel _)
      · cases hX : jsSplitAux sep fuel rest with
        | nil => exact absurd hX (jsSplitAux_ne_nil sep fuel rest)
        | cons h₀ t =>
          have hres : jsSplitAux sep (fuel + 1) (c :: rest) = (c :: h₀) :: t := by
            rw [jsSplitAux, if_neg hp, hX]
          cases t with
          | nil =>
            have hr : h₀ = rest := (ih rest).2 h₀ hX
            refine ⟨?_, ?_⟩
            · rw [hres]
              subst hr
              simp
            · intro h hh
              rw [hres] at hh
              injection hh with h1 _
              rw [← h1, hr]
          | cons t₀ t₁ =>
            refine ⟨?_, ?_⟩
            · rw [hres]
              have h1 := (ih rest).1
              rw [hX, List.getLastD_cons, List.getLastD_eq_getLast?] at h1
              rw [List.getLastD_cons, List.getLastD_eq_getLast?]
              obtain ⟨x, hx⟩ := Option.isSome_iff_exists.mp
                (List.getLast?_isSome.mpr (List.cons_ne_nil t₀ t₁))
              rw [hx] at h1 ⊢
              exact h1.trans (List.suffix_cons c rest)
            · intro h hh
              rw [hres] at hh
              injection hh with _ h2
              exact absurd h2 (List.cons_ne_nil t₀ t₁)

theorem jsLast_jsSplit_suffix (s sep : String) :
    (jsLast (jsSplit s sep)).data <:+ s.data := by
  unfold jsLast jsSplit
  rw [List.getLastD_eq_getLast?, List.getLast?_map]
  obtain ⟨x, hx⟩ := Option.isSome_iff_exists.mp (List.getLast?_isSome.mpr
    (jsSplitAux_ne_nil sep.data s.data.length s.data))
  rw [hx]
  have h1 := (jsSplitAux_getLastD_suffix sep.data s.data.length s.data).1
  rw [List.getLastD_eq_getLast?, hx] at h1
  simpa using h1

theorem strIncludes_lower_of_basename {rel pat : String}
    (h : strIncludes (jsToLower (jsLast (jsSplit rel "/"))) pat = true) :
    strIncludes (jsToLower rel) pat = true := by
  unfold strIncludes at h ⊢
  have hsuf : (jsToLower (jsLast (jsSplit rel "/"))).data <:+ (jsToLower rel).data := by
    unfold jsToLower
    exact List.IsSuffix.map Char.toLower (jsLast_jsSplit_suffix rel "/")
  exact decide_eq_true ((of_decide_eq_true h).trans hsuf.isInfix)

/-! ### Facts about a bag holding one encoder-role file and one decoder-role
file (the hypotheses of the cross-resolution claim).  All four lemmas work for
arbitrary requested names, path prefixes included: the marker and extension
checks are on the basename — exactly what both responders test — and transfer
to the full name for the exact-match tiers via `strIncludes_lower_of_basename`. -/

theorem fetchResolve_encoder {files : Files} {e : String × Blob} {rel : String}
    (hnd : (files.map (fun p => p.1)).Nodup)
    (he : e ∈ files)
    (heOn : strEndsWith e.1 ".onnx" = true)
    (heEnc : strIncludes (jsToLower e.1) "encoder" = true)
    (hUe : ∀ p ∈ files, strIncludes (jsToLower p.1) "encoder" = true → p = e)
    (hRon : strEndsWith (jsLast (jsSplit rel "/")) ".onnx" = true)
    (hREnc : strIncludes (jsToLower (jsLast (jsSplit rel "/"))) "encoder" = true) :
    fetchResolve files rel = some e.2 := by
  have hRelEnc : strIncludes (jsToLower rel) "encoder" = true :=
    strIncludes_lower_of_basename hREnc
  have hgete : getFile files e.1 = some e.2 := getFile_eq_of_mem hnd (by
    have : (e.1, e.2) = e := rfl
    rw [this]; exact he)
  cases hg : getFile files rel with
  | some blob =>
    obtain ⟨p, hp, hp1, hp2⟩ := getFile_eq_some_elim hg
    have hpe : p = e := hUe p hp (by rw [hp1]; exact hRelEnc)
    unfold fetchResolve
    simp only [hg]
    rw [← hp2, hpe]
  | none =>
    cases hg2 : getFile files (jsLast (jsSplit rel "/")) with
    | some blob =>
      obtain ⟨p, hp, hp1, hp2⟩ := getFile_eq_some_elim hg2
      have hpe : p = e := hUe p hp (by rw [hp1]; exact hREnc)
      unfold fetchResolve
      simp only [hg, hg2]
      rw [← hp2, hpe]
    | none =>
      have hsome : (List.find? (fun k => strIncludes (jsToLower k) "encoder" && strEndsWith k ".onnx")
          (files.map (fun p => p.1))).isSome := by
        refine List.find?_isSome.mpr ⟨e.1, List.mem_map.mpr ⟨e, he, rfl⟩, ?_⟩
        rw [heEnc, heOn]
        rfl
      obtain ⟨k, hfind⟩ := Option.isSome_iff_exists.mp hsome
      have hkprop := List.find?_some hfind
      have hkEnc : strIncludes (jsToLower k) "encoder" = true :=
        ((Bool.and_eq_true _ _).mp hkprop).1
      obtain ⟨p, hp, hpk⟩ := List.mem_map.mp (List.mem_of_find?_eq_some hfind)
      have hpe : p = e := hUe p hp (by rw [hpk]; exact hkEnc)
      have hke : k = e.1 := by rw [← hpk, hpe]
      unfold fetchResolve
      simp only [hg, hg2, hRon, if_true, hREnc, hfind, hke, hgete]

theorem swResolve_encoder {files : Files} {e : String × Blob} {rel : String}
    (hnd : (files.map (fun p => p.1)).Nodup)
    (he : e ∈ files)
    (heOn : strEndsWith e.1 ".onnx" = true)
    (heEnc : strIncludes (jsToLower e.1) "encoder" = true)
    (hUe : ∀ p ∈ files, strIncludes (jsToLower p.1) "encoder" = true → p = e)
    (hRon : strEndsWith (jsLast (jsSplit rel "/")) ".onnx" = true)
    (hREnc : strIncludes (jsToLower (jsLast (jsSplit rel "/"))) "encoder" = true) :
    swResolve (syncImage files) rel = some e.2 := by
  have hRelEnc : strIncludes (jsToLower rel) "encoder" = true :=
    strIncludes_lower_of_basename hREnc
  have hne : ¬ jsLast (jsSplit rel "/") = "" := by
    intro h0
    rw [h0] at hRon
    exact absurd hRon (by decide)
  have hgete : getFile files e.1 = some e.2 := getFile_eq_of_mem hnd (by
    have : (e.1, e.2) = e := rfl
    rw [this]; exact he)
  have hpredE : ∀ q : String × Blob,
      (strIncludes (jsToLower (cacheFilesPfx ++ q.1)) "encoder"
        && strEndsWith (cacheFilesPfx ++ q.1) ".onnx")
      = (strIncludes (jsToLower q.1) "encoder" && strEndsWith q.1 ".onnx") := fun q => by
    rw [encUrl_transfer, onnxUrl_transfer]
  cases hg : getFile files rel with
  | some blob =>
    obtain ⟨p, hp, hp1, hp2⟩ := getFile_eq_some_elim hg
    have hpe : p = e := hUe p hp (by rw [hp1]; exact hRelEnc)
    unfold swResolve
    simp only [hne, if_false, cacheMatch_syncImage, hg]
    rw [← hp2, hpe]
  | none =>
    cases hg2 : getFile files (jsLast (jsSplit rel "/")) with
    | some blob =>
      obtain ⟨p, hp, hp1, hp2⟩ := getFile_eq_some_elim hg2
      have hpe : p = e := hUe p hp (by rw [hp1]; exact hREnc)
      unfold swResolve
      simp only [hne, if_false, cacheMatch_syncImage, hg, hg2]
      rw [← hp2, hpe]
    | none =>
      have hsome : (files.find?
          (fun q => strIncludes (jsToLower q.1) "encoder" && strEndsWith q.1 ".onnx")).isSome := by
        refine List.find?_isSome.mpr ⟨e, he, ?_⟩
        rw [heEnc, heOn]
        rfl
      obtain ⟨q, hfind⟩ := Option.isSome_iff_exists.mp hsome
      have hkprop := List.find?_some hfind
      have hqEnc : strIncludes (jsToLower q.1) "encoder" = true :=
        ((Bool.and_eq_true _ _).mp hkprop).1
      have hqe : q = e := hUe q (List.mem_of_find?_eq_some hfind) hqEnc
      unfold swResolve
      simp only [hne, if_false, cacheMatch_syncImage, hg, hg2, hRon, if_true, hREnc,
        keys_find?_syncImage, find?_congr_pred files (fun q => hpredE q), hfind, hqe]
      simp [cacheMatch_syncImage, hgete]

theorem fetchResolve_decoder {files : Files} {d : String × Blob} {rel : String}
    (hnd : (files.map (fun p => p.1)).Nodup)
    (hd : d ∈ files)
    (hdOn : strEndsWith d.1 ".onnx" = true)
    (hdDec : strIncludes (jsToLower d.1) "decoder" = true)
    (hUd : ∀ p ∈ files,
      (strIncludes (jsToLower p.1) "decoder" || strIncludes (jsToLower p.1) "merged") = true →
      p = d)
    (hRon : strEndsWith (jsLast (jsSplit rel "/")) ".onnx" = true)
    (hREnc : strIncludes (jsToLower (jsLast (jsSplit rel "/"))) "encoder" = false)
    (hRDec : (strIncludes (jsToLower (jsLast (jsSplit rel "/"))) "decoder"
        || strIncludes (jsToLower (jsLast (jsSplit rel "/"))) "merged") = true) :
    fetchResolve files rel = some d.2 := by
  have hRelDec : (strIncludes (jsToLower rel) "decoder"
      || strIncludes (jsToLower rel) "merged") = true := by
    have hc := hRDec
    rw [Bool.or_eq_true] at hc
    rw [Bool.or_eq_true]
    rcases hc with h | h
    · exact Or.inl (strIncludes_lower_of_basename h)
    · exact Or.inr (strIncludes_lower_of_basename h)
  have hgetd : getFile files d.1 = some d.2 := getFile_eq_of_mem hnd (by
    have : (d.1, d.2) = d := rfl
    rw [this]; exact hd)
  cases hg : getFile files rel with
  | some blob =>
    obtain ⟨p, hp, hp1, hp2⟩ := getFile_eq_some_elim hg
    have hpd : p = d := hUd p hp (by rw [hp1]; exact hRelDec)
    unfold fetchResolve
    simp only [hg]
    rw [← hp2, hpd]
  | none =>
    cases hg2 : getFile files (jsLast (jsSplit rel "/")) with
    | some blob =>
      obtain ⟨p, hp, hp1, hp2⟩ := getFile_eq_some_elim hg2
      have hpd : p = d := hUd p hp (by rw [hp1]; exact hRDec)
      unfold fetchResolve
      simp only [hg, hg2]
      rw [← hp2, hpd]
    | none =>
      have hsome : (List.find? (fun k => strIncludes (jsToLower k) "decoder" && strEndsWith k ".onnx")
          (files.map (fun p => p.1))).isSome := by
        refine List.find?_isSome.mpr ⟨d.1, List.mem_map.mpr ⟨d, hd, rfl⟩, ?_⟩
        rw [hdDec, hdOn]
        rfl
      obtain ⟨k, hfind⟩ := Option.isSome_iff_exists.mp hsome
      have hkprop := List.find?_some hfind
      have hkDec : strIncludes (jsToLower k) "decoder" = true :=
        ((Bool.and_eq_true _ _).mp hkprop).1
      obtain ⟨p, hp, hpk⟩ := List.mem_map.mp (List.mem_of_find?_eq_some hfind)
      have hpd : p = d := hUd p hp (by
        rw [hpk, hkDec]
        rfl)
      have hkd : k = d.1 := by rw [← hpk, hpd]
      unfold fetchResolve
      simp only [hg, hg2, hRon, if_true, hREnc, Bool.false_eq_true, if_false, hRDec,
        hfind, hkd, hgetd]

theorem swResolve_decoder {files : Files} {d : String × Blob} {rel : String}
    (hnd : (files.map (fun p => p.1)).Nodup)
    (hd : d ∈ files)
    (hdOn : strEndsWith d.1 ".onnx" = true)
    (hdDec : strIncludes (jsToLower d.1) "decoder" = true)
    (hUd : ∀ p ∈ files,
      (strIncludes (jsToLower p.1) "decoder" || strIncludes (jsToLower p.1) "merged") = true →
      p = d)
    (hRon : strEndsWith (jsLast (jsSplit rel "/")) ".onnx" = true)
    (hREnc : strIncludes (jsToLower (jsLast (jsSplit rel "/"))) "encoder" = false)
    (hRDec : (strIncludes (jsToLower (jsLast (jsSplit rel "/"))) "decoder"
        || strIncludes (jsToLower (jsLast (jsSplit rel "/"))) "merged") = true) :
    swResolve (syncImage files) rel = some d.2 := by
  have hRelDec : (strIncludes (jsToLower rel) "decoder"
      || strIncludes (jsToLower rel) "merged") = true := by
    have hc := hRDec
    rw [Bool.or_eq_true] at hc
    rw [Bool.or_eq_true]
    rcases hc with h | h
    · exact Or.inl (strIncludes_lower_of_basename h)
    · exact Or.inr (strIncludes_lower_of_basename h)
  have hne : ¬ jsLast (jsSplit rel "/") = "" := by
    intro h0
    rw [h0] at hRon
    exact absurd hRon (by decide)
  have hgetd : getFile files d.1 = some d.2 := getFile_eq_of_mem hnd (by
    have : (d.1, d.2) = d := rfl
    rw [this]; exact hd)
  have hpredD : ∀ q : String × Blob,
      ((strIncludes (jsToLower (cacheFilesPfx ++ q.1)) "decoder"
          || strIncludes (jsToLower (cacheFilesPfx ++ q.1)) "merged")
        && strEndsWith (cacheFilesPfx ++ q.1) ".onnx")
      = ((strIncludes (jsToLower q.1) "decoder" || strIncludes (jsToLower q.1) "merged")
        && strEndsWith q.1 ".onnx") := fun q => by
    rw [decUrl_transfer, mergUrl_transfer, onnxUrl_transfer]
  cases hg : getFile files rel with
  | some blob =>
    obtain ⟨p, hp, hp1, hp2⟩ := getFile_eq_some_elim hg
    have hpd : p = d := hUd p hp (by rw [hp1]; exact hRelDec)
    unfold swResolve
    simp only [hne, if_false, cacheMatch_syncImage, hg]
    rw [← hp2, hpd]
  | none =>
    cases hg2 : getFile files (jsLast (jsSplit rel "/")) with
    | some blob =>
      obtain ⟨p, hp, hp1, hp2⟩ := getFile_eq_some_elim hg2
      have hpd : p = d := hUd p hp (by rw [hp1]; exact hRDec)
      unfold swResolve
      simp only [hne, if_false, cacheMatch_syncImage, hg, hg2]
      rw [← hp2, hpd]
    | none =>
      have hsome : (files.find? (fun q =>
          (strIncludes (jsToLower q.1) "decoder" || strIncludes (jsToLower q.1) "merged")
            && strEndsWith q.1 ".onnx")).isSome := by
        refine List.find?_isSome.mpr ⟨d, hd, ?_⟩
        rw [hdDec, hdOn]
        rfl
      obtain ⟨q, hfind⟩ := Option.isSome_iff_exists.mp hsome
      have hkprop := List.find?_some hfind
      have hqDec : (strIncludes (jsToLower q.1) "decoder"
          || strIncludes (jsToLower q.1) "merged") = true :=
        ((Bool.and_eq_true _ _).mp hkprop).1
      have hqd : q = d := hUd q (List.mem_of_find?_eq_some hfind) hqDec
      unfold swResolve
      simp only [hne, if_false, cacheMatch_syncImage, hg, hg2, hRon, if_true, hREnc,
        Bool.false_eq_true, if_false, hRDec, keys_find?_syncImage,
        find?_congr_pred files (fun q => hpredD q), hfind, hqd]
      simp [cacheMatch_syncImage, hgetd]

/-! ## The claims -/

/-- **C1** (error_handling): for every request under the reserved
`/custom-model/` prefix that no stored asset matches, each responder — the
service worker (`serveCustomModel`), the same-process fetch interceptor (when
it is the one answering, i.e. the published map is nonempty), and the dev
static server middleware — returns status 404 with content type `text/plain`
and a body naming the missing file, never a 200 with fallback content. -/
theorem c1_miss_is_plain_404 :
    (∀ (cache : Cache) (pathname : String),
      swResolve cache (jsLast (jsSplit (jsFirst (jsSplit pathname "?")) customModelSeg)) = none →
      serveCustomModel cache pathname =
        { status := 404, ctype := "text/plain",
          body := "File kustom tidak ditemukan di cache: "
            ++ (if jsLast (jsSplit (jsLast (jsSplit (jsFirst (jsSplit pathname "?")) customModelSeg)) "/") = ""
                then jsLast (jsSplit (jsFirst (jsSplit pathname "?")) customModelSeg)
                else jsLast (jsSplit (jsLast (jsSplit (jsFirst (jsSplit pathname "?")) customModelSeg)) "/")) })
    ∧ (∀ (fs : Files) (url : String),
      fs ≠ [] →
      strIncludes url customModelSeg = true →
      fetchResolve fs (jsLast (jsSplit (jsFirst (jsSplit url "?")) customModelSeg)) = none →
      interceptedFetch (some fs) url =
        .response ⟨404, "text/plain",
          "File not found: "
            ++ jsLast (jsSplit (jsLast (jsSplit (jsFirst (jsSplit url "?")) customModelSeg)) "/")⟩)
    ∧ (∀ rawUrl : String,
      (jsFirst (jsSplit rawUrl "?") = "/custom-model"
        ∨ strStartsWith (jsFirst (jsSplit rawUrl "?")) "/custom-model/" = true) →
      customModelNotFoundMiddleware rawUrl =
        some ⟨404, "text/plain", "404 Not Found: " ++ jsFirst (jsSplit rawUrl "?")⟩) := by
  refine ⟨?_, ?_, ?_⟩
  · intro cache pathname h
    simp only [serveCustomModel, h]
  · intro fs url hne hseg h
    have hlen : fs.length > 0 := List.length_pos.mpr hne
    simp only [interceptedFetch, hseg, if_true, hlen, h]
  · intro rawUrl h
    have hcond : (jsFirst (jsSplit rawUrl "?") = "/custom-model"
        || strStartsWith (jsFirst (jsSplit rawUrl "?")) "/custom-model/") = true := by
      rcases h with h | h
      · simp [h]
      · simp [h]
    simp only [customModelNotFoundMiddleware, hcond, if_true]

/-- Witness for **C1** at concrete inputs: an empty cache, a one-file bag
missing the requested name, and a dev-server request under the prefix. -/
theorem c1_miss_is_plain_404_witness :
    serveCustomModel [] "/custom-model/x.bin" =
      { status := 404, ctype := "text/plain",
        body := "File kustom tidak ditemukan di cache: x.bin" }
    ∧ interceptedFetch (some [("a.json", ⟨"A", "application/json"⟩)])
        "https://host/custom-model/x.bin" =
      .response ⟨404, "text/plain", "File not found: x.bin"⟩
    ∧ customModelNotFoundMiddleware "/custom-model/x.bin?v=1" =
      some ⟨404, "text/plain", "404 Not Found: /custom-model/x.bin"⟩ := by
  refine ⟨?_, ?_, ?_⟩
  · exact (c1_miss_is_plain_404.1 [] "/custom-model/x.bin" (by decide)).trans (by decide)
  · exact (c1_miss_is_plain_404.2.1 [("a.json", ⟨"A", "application/json"⟩)]
      "https://host/custom-model/x.bin" (by decide) (by decide) (by decide)).trans (by decide)
  · exact (c1_miss_is_plain_404.2.2 "/custom-model/x.bin?v=1" (by decide)).trans (by decide)

/-- **C2** counterexample: the cache synchronization performed after a
wholesale replace only `put`s the new bag's entries; an entry under the
reserved namespace stemming from a previous bag (`a.onnx`, not a key of the
new bag `{b.onnx}`) survives in the shared cache un-purged, so the claim's
"no entry that predates the replace survives" is false. -/
theorem c2_stale_entry_survives :
    (cacheFilesPfx ++ "a.onnx", (⟨"A", ""⟩ : Blob))
        ∈ syncCache [(cacheFilesPfx ++ "a.onnx", ⟨"A", ""⟩)] [("b.onnx", ⟨"B", ""⟩)]
    ∧ "a.onnx" ∉ ([("b.onnx", (⟨"B", ""⟩ : Blob))] : Files).map (fun p => p.1) := by
  constructor
  · decide
  · decide

/-- **C2** (amended): after `replace(B)` followed by the cache sync, every key
of `B` has a corresponding entry in the shared cache holding its blob; but
entries that predate the replace are NOT purged — any old entry whose URL is
not overwritten by a key of `B` survives in the shared cache (only the
inference library's own `transformers` caches are purged, at load time). -/
theorem c2_sync_writes_all_keys_keeps_stale :
    (∀ (c : Cache) (files : Files) (n : String) (b : Blob),
      (files.map (fun p => p.1)).Nodup → (n, b) ∈ files →
      cacheMatch (syncCache c files) (cacheFilesPfx ++ n) = some b)
    ∧ (∀ (c : Cache) (files : Files) (q : String × Blob),
      q ∈ c → (∀ p ∈ files, q.1 ≠ cacheFilesPfx ++ p.1) →
      q ∈ syncCache c files) :=
  ⟨fun c _ _ _ hnd hmem => cacheMatch_syncCache_of_mem c hnd hmem,
   fun _ _ _ hq h => mem_syncCache_of_old hq h⟩

/-- Witness for the amended **C2** at concrete inputs. -/
theorem c2_sync_witness :
    cacheMatch (syncCache [] [("b.onnx", ⟨"B", ""⟩)]) (cacheFilesPfx ++ "b.onnx")
      = some ⟨"B", ""⟩
    ∧ (cacheFilesPfx ++ "x.bin", (⟨"X", ""⟩ : Blob))
        ∈ syncCache [(cacheFilesPfx ++ "x.bin", ⟨"X", ""⟩)] [("b.onnx", ⟨"B", ""⟩)] :=
  ⟨c2_sync_writes_all_keys_keeps_stale.1 [] [("b.onnx", ⟨"B", ""⟩)] "b.onnx" ⟨"B", ""⟩
      (by decide) (by decide),
   c2_sync_writes_all_keys_keeps_stale.2 [(cacheFilesPfx ++ "x.bin", ⟨"X", ""⟩)]
      [("b.onnx", ⟨"B", ""⟩)] (cacheFilesPfx ++ "x.bin", ⟨"X", ""⟩) (by decide) (by decide)⟩

/-- **C3** counterexample: with a previously reported manifest in state, a
nonempty replacement bag with no `config.json` leaves the previous manifest
reported (the `parseConfigs` early `return` never calls
`setModelConfig(null)`), so "the reported manifest is absent, never a
leftover" is false. -/
theorem c3_leftover_manifest :
    getFile [("model.onnx", (⟨"W", ""⟩ : Blob))] "config.json" = none
    ∧ modelConfigEffect (fun _ => none) (fun _ => none)
        (some ⟨"MarianMTModel", "marian", "Standard", true,
               ["encoder_model.onnx", "decoder_model_merged.onnx"], false, false⟩)
        "custom" [("model.onnx", ⟨"W", ""⟩)]
      = some ⟨"MarianMTModel", "marian", "Standard", true,
              ["encoder_model.onnx", "decoder_model_merged.onnx"], false, false⟩ := by
  constructor
  · rfl
  · rfl

/-- **C3** (amended): the reported manifest is reset to absent when the source
is not `custom` or the bag is empty; but when a nonempty bag lacks
`config.json` (or its configuration document fails to parse), the previously
reported manifest — possibly derived from an earlier bag — is retained
unchanged; when `config.json` is present and parses, the manifest is rebuilt
from the current bag alone, independent of the previous manifest. -/
theorem c3_manifest_effect_cases :
    (∀ (pc : String → Option ConfigData) (pt : String → Option TokenizerData)
       (prev : Option ModelManifest) (src : String) (files : Files),
      src ≠ "custom" → modelConfigEffect pc pt prev src files = none)
    ∧ (∀ pc pt (prev : Option ModelManifest) (src : String),
      modelConfigEffect pc pt prev src [] = none)
    ∧ (∀ pc pt (prev : Option ModelManifest) (files : Files),
      files ≠ [] → getFile files "config.json" = none →
      modelConfigEffect pc pt prev "custom" files = prev)
    ∧ (∀ pc pt (prev : Option ModelManifest) (files : Files) (cb : Blob),
      files ≠ [] → getFile files "config.json" = some cb → pc cb.data = none →
      modelConfigEffect pc pt prev "custom" files = prev)
    ∧ (∀ pc pt (prev prev' : Option ModelManifest) (files : Files) (cb : Blob)
        (cfg : ConfigData),
      files ≠ [] → getFile files "config.json" = some cb → pc cb.data = some cfg →
      modelConfigEffect pc pt prev "custom" files
        = modelConfigEffect pc pt prev' "custom" files) := by
  refine ⟨?_, ?_, ?_, ?_, ?_⟩
  · intro pc pt prev src files h
    simp [modelConfigEffect, h]
  · intro pc pt prev src
    simp [modelConfigEffect]
  · intro pc pt prev files hne h
    simp [modelConfigEffect, hne, parseConfigs, h]
  · intro pc pt prev files cb hne h hp
    simp [modelConfigEffect, hne, parseConfigs, h, hp]
  · intro pc pt prev prev' files cb cfg hne h hp
    simp [modelConfigEffect, hne, parseConfigs, h, hp]

/-- Witness for the amended **C3** at concrete inputs. -/
theorem c3_manifest_effect_witness :
    modelConfigEffect (fun _ => none) (fun _ => none) none "remote"
      [("config.json", ⟨"{}", "application/json"⟩)] = none
    ∧ modelConfigEffect (fun _ => none) (fun _ => none)
        (some ⟨"A", "B", "C", false, ["model.onnx"], false, false⟩) "custom"
        [("model.onnx", ⟨"W", ""⟩)]
      = some ⟨"A", "B", "C", false, ["model.onnx"], false, false⟩ := by
  constructor
  · exact c3_manifest_effect_cases.1 _ _ none "remote" _ (by decide)
  · exact c3_manifest_effect_cases.2.2.1 _ _ _ [("model.onnx", ⟨"W", ""⟩)]
      (by decide) (by decide)

/-- **C4**: evaluation at the failing input.  Both responders see the same
synchronized view of the bag `{model_merged.onnx ↦ M, model_decoder.onnx ↦ D}`
(in that insertion order) and resolve the same request
`decoder_model.onnx`, yet the in-page interceptor (decoder matches tried
before merged matches) returns `D` while the service worker (one combined
decoder-or-merged scan) returns `M`: the two responders' resolution outcomes
diverge. -/
theorem c4_responders_diverge :
    fetchResolve [("model_merged.onnx", ⟨"M", ""⟩), ("model_decoder.onnx", ⟨"D", ""⟩)]
        "decoder_model.onnx" = some ⟨"D", ""⟩
    ∧ swResolve (syncImage [("model_merged.onnx", ⟨"M", ""⟩), ("model_decoder.onnx", ⟨"D", ""⟩)])
        "decoder_model.onnx" = some ⟨"M", ""⟩
    ∧ (⟨"D", ""⟩ : Blob) ≠ ⟨"M", ""⟩ := by
  refine ⟨?_, ?_, ?_⟩
  · decide
  · decide
  · decide

/-- **C5** (functional_correctness): tier-1 exactness.  A requested logical
name stored verbatim in the bag resolves, in both responders, to exactly the
blob stored under that name; no fuzzy tier can override the exact match. -/
theorem c5_tier1_exact :
    ∀ (files : Files) (rel : String) (b : Blob),
      getFile files rel = some b →
      fetchResolve files rel = some b ∧ swResolve (syncImage files) rel = some b := by
  intro files rel b h
  constructor
  · simp only [fetchResolve, h]
  · simp only [swResolve, cacheMatch_syncImage, h]

/-- Witness for **C5** at a concrete bag and request. -/
theorem c5_tier1_exact_witness :
    fetchResolve [("config.json", ⟨"CFG", "application/json"⟩)] "config.json"
      = some ⟨"CFG", "application/json"⟩
    ∧ swResolve (syncImage [("config.json", ⟨"CFG", "application/json"⟩)]) "config.json"
      = some ⟨"CFG", "application/json"⟩ :=
  c5_tier1_exact [("config.json", ⟨"CFG", "application/json"⟩)] "config.json"
    ⟨"CFG", "application/json"⟩ (by decide)

/-- **C6** (functional_correctness): tier-5 singleton fallback.  If the bag
holds exactly one `.onnx` file, then any request whose basename ends in
`.onnx` and misses both the exact and the basename tier resolves — in both
responders — to that single `.onnx` file, whatever else the requested name
contains. -/
theorem c6_singleton_fallback :
    ∀ (files : Files) (n₀ : String) (b₀ : Blob) (rel : String),
      (files.map (fun p => p.1)).Nodup →
      files.filter (fun p => strEndsWith p.1 ".onnx") = [(n₀, b₀)] →
      strEndsWith (jsLast (jsSplit rel "/")) ".onnx" = true →
      getFile files rel = none →
      getFile files (jsLast (jsSplit rel "/")) = none →
      fetchResolve files rel = some b₀ ∧ swResolve (syncImage files) rel = some b₀ :=
  fun _ _ _ _ hnd hfil hon h1 h2 =>
    ⟨fetchResolve_single_onnx hnd hfil hon h1 h2,
     swResolve_single_onnx hnd hfil hon h1 h2⟩

/-- Witness for **C6**: a bag with a tokenizer file and one oddly named
weight file, resolved by a decoder-flavoured request name. -/
theorem c6_singleton_fallback_witness :
    fetchResolve [("tokenizer.json", ⟨"T", "application/json"⟩),
                  ("weird-model.onnx", ⟨"W", ""⟩)] "decoder_model.onnx"
      = some ⟨"W", ""⟩
    ∧ swResolve (syncImage [("tokenizer.json", ⟨"T", "application/json"⟩),
                  ("weird-model.onnx", ⟨"W", ""⟩)]) "decoder_model.onnx"
      = some ⟨"W", ""⟩ :=
  c6_singleton_fallback
    [("tokenizer.json", ⟨"T", "application/json"⟩), ("weird-model.onnx", ⟨"W", ""⟩)]
    "weird-model.onnx" ⟨"W", ""⟩ "decoder_model.onnx"
    (by decide) (by decide) (by decide) (by decide) (by decide)

/-- **C7** counterexample to the claim as stated: in a bag containing an
encoder-marked and a decoder-marked `.onnx` file, a request whose *name*
contains `"encoder"` — but only in its directory part, not in its basename —
resolves to neither file: both responders test the basename, whose markers
and only match candidates decide the fuzzy tiers, so `encoder_dir/model.onnx`
is a miss, not "the encoder file". -/
theorem c7_dir_marker_request_misses :
    strIncludes "encoder_dir/model.onnx" "encoder" = true
    ∧ fetchResolve [("encoder_model.onnx", ⟨"E", ""⟩), ("decoder_model_merged.onnx", ⟨"D", ""⟩)]
        "encoder_dir/model.onnx" = none
    ∧ swResolve (syncImage [("encoder_model.onnx", ⟨"E", ""⟩),
        ("decoder_model_merged.onnx", ⟨"D", ""⟩)]) "encoder_dir/model.onnx" = none := by
  refine ⟨?_, ?_, ?_⟩
  · decide
  · decide
  · decide

/-- **C7** (amended, functional_correctness): no cross-resolution, with the
role markers judged on the request's basename — which is what both responders
test after path normalization.  For every bag whose only encoder-marked
`.onnx` file is `e` and whose only decoder/merged-marked file is `d` (with
`d` containing `"decoder"`), and every requested name — path prefix included —
whose basename ends in `.onnx`: if the basename contains `"encoder"` the
request resolves to `e`, and if it contains `"decoder"` or `"merged"` (and
not `"encoder"`, which tier 3 checks first) it resolves to `d` — in both
responders, never cross-resolved.  A request carrying the marker only in its
directory part resolves to neither (see the counterexample). -/
theorem c7_basename_no_cross_resolution :
    ∀ (files : Files) (e d : String × Blob) (rel : String),
      (files.map (fun p => p.1)).Nodup →
      e ∈ files → d ∈ files →
      strEndsWith e.1 ".onnx" = true → strEndsWith d.1 ".onnx" = true →
      strIncludes (jsToLower e.1) "encoder" = true →
      strIncludes (jsToLower d.1) "decoder" = true →
      (∀ p ∈ files, strIncludes (jsToLower p.1) "encoder" = true → p = e) →
      (∀ p ∈ files,
        (strIncludes (jsToLower p.1) "decoder" || strIncludes (jsToLower p.1) "merged") = true →
        p = d) →
      strEndsWith (jsLast (jsSplit rel "/")) ".onnx" = true →
      ((strIncludes (jsToLower (jsLast (jsSplit rel "/"))) "encoder" = true →
          fetchResolve files rel = some e.2 ∧ swResolve (syncImage files) rel = some e.2)
       ∧ (strIncludes (jsToLower (jsLast (jsSplit rel "/"))) "encoder" = false →
          (strIncludes (jsToLower (jsLast (jsSplit rel "/"))) "decoder"
            || strIncludes (jsToLower (jsLast (jsSplit rel "/"))) "merged") = true →
          fetchResolve files rel = some d.2 ∧ swResolve (syncImage files) rel = some d.2)) :=
  fun _ _ _ _ hnd he hd heOn hdOn heEnc hdDec hUe hUd hRon =>
    ⟨fun hREnc =>
      ⟨fetchResolve_encoder hnd he heOn heEnc hUe hRon hREnc,
       swResolve_encoder hnd he heOn heEnc hUe hRon hREnc⟩,
     fun hREnc hRDec =>
      ⟨fetchResolve_decoder hnd hd hdOn hdDec hUd hRon hREnc hRDec,
       swResolve_decoder hnd hd hdOn hdDec hUd hRon hREnc hRDec⟩⟩

/-- Witness for the amended **C7**: the canonical encoder + merged-decoder bag
with a path-prefixed encoder-flavoured request and a path-prefixed
merged-flavoured request. -/
theorem c7_basename_no_cross_resolution_witness :
    (fetchResolve [("encoder_model.onnx", ⟨"E", ""⟩), ("decoder_model_merged.onnx", ⟨"D", ""⟩)]
        "onnx/my_encoder.onnx" = some ⟨"E", ""⟩
      ∧ swResolve (syncImage [("encoder_model.onnx", ⟨"E", ""⟩),
          ("decoder_model_merged.onnx", ⟨"D", ""⟩)]) "onnx/my_encoder.onnx" = some ⟨"E", ""⟩)
    ∧ (fetchResolve [("encoder_model.onnx", ⟨"E", ""⟩), ("decoder_model_merged.onnx", ⟨"D", ""⟩)]
        "sub/model_merged_q.onnx" = some ⟨"D", ""⟩
      ∧ swResolve (syncImage [("encoder_model.onnx", ⟨"E", ""⟩),
          ("decoder_model_merged.onnx", ⟨"D", ""⟩)]) "sub/model_merged_q.onnx" = some ⟨"D", ""⟩) :=
  ⟨(c7_basename_no_cross_resolution
      [("encoder_model.onnx", ⟨"E", ""⟩), ("decoder_model_merged.onnx", ⟨"D", ""⟩)]
      ("encoder_model.onnx", ⟨"E", ""⟩) ("decoder_model_merged.onnx", ⟨"D", ""⟩)
      "onnx/my_encoder.onnx" (by decide) (by decide) (by decide) (by decide) (by decide)
      (by decide) (by decide) (by decide) (by decide) (by decide)).1 (by decide),
   (c7_basename_no_cross_resolution
      [("encoder_model.onnx", ⟨"E", ""⟩), ("decoder_model_merged.onnx", ⟨"D", ""⟩)]
      ("encoder_model.onnx", ⟨"E", ""⟩) ("decoder_model_merged.onnx", ⟨"D", ""⟩)
      "sub/model_merged_q.onnx" (by decide) (by decide) (by decide) (by decide) (by decide)
      (by decide) (by decide) (by decide) (by decide) (by decide)).2
      (by decide) (by decide)⟩

/-- **C8** (frame_effect): the stale-entry purge in `loadOfflineModel` deletes,
from a (transformers) response cache, exactly the entries whose key contains
the reserved `/custom-model/` segment — every such entry is removed and every
other entry survives in place — and, over the whole Cache Storage, only caches
whose name contains `transformers` are touched. -/
theorem c8_purge_exactly_reserved :
    (∀ c : Cache,
      purgeCustomModelEntries c = c.filter (fun q => !(strIncludes q.1 customModelSeg)))
    ∧ (∀ storage : List (String × Cache),
      clearTransformersCaches storage
        = storage.map (fun nc =>
            if strIncludes nc.1 "transformers"
            then (nc.1, nc.2.filter (fun q => !(strIncludes q.1 customModelSeg)))
            else nc)) := by
  refine ⟨purgeCustomModelEntries_eq_filter, ?_⟩
  intro storage
  unfold clearTransformersCaches
  have hfun : (fun nc : String × Cache =>
        if strIncludes nc.1 "transformers" then (nc.1, purgeCustomModelEntries nc.2) else nc)
      = (fun nc =>
        if strIncludes nc.1 "transformers"
        then (nc.1, nc.2.filter (fun q => !(strIncludes q.1 customModelSeg)))
        else nc) := by
    funext nc
    by_cases h : strIncludes nc.1 "transformers" = true
    · simp [h, purgeCustomModelEntries_eq_filter]
    · simp [h]
  rw [hfun]

/-- **C9** (error_handling): in `custom` source mode, with no early return
pending and Service Worker support present but no worker controlling the
page, `loadOfflineModel`'s guard phase terminates definitively: it returns
`false`, sets the one explicit reload-instructing error message, and does not
fall through to pipeline construction. -/
theorem c9_sw_not_controlling_fails_definitively :
    ∀ a : LoadArgs,
      a.modelSource = "custom" →
      ¬(a.translatorCurrent = true ∧ a.loadedModelId = some "custom-model"
          ∧ a.overrideFiles = none) →
      a.isModelLoading = false →
      a.swSupported = true →
      a.swControlled = false →
      loadOfflineModelPre a = .swNotControlling
          "Service Worker belum siap mengontrol halaman. Silakan refresh halaman (Ctrl+R) dan coba lagi."
      ∧ (loadOfflineModelPre a).returnedFalse = true
      ∧ (loadOfflineModelPre a).errMsg = some
          "Service Worker belum siap mengontrol halaman. Silakan refresh halaman (Ctrl+R) dan coba lagi."
      ∧ (loadOfflineModelPre a).constructsPipeline = false := by
  intro a h1 h2 h3 h4 h5
  have heq : loadOfflineModelPre a = .swNotControlling
      "Service Worker belum siap mengontrol halaman. Silakan refresh halaman (Ctrl+R) dan coba lagi." := by
    simp [loadOfflineModelPre, h1, h2, h3, h4, h5]
  refine ⟨heq, ?_, ?_, ?_⟩ <;> rw [heq] <;> rfl

/-- Witness for **C9** at a concrete state: fresh custom-mode state with
Service Worker support but no controlling worker. -/
theorem c9_sw_not_controlling_witness :
    loadOfflineModelPre
        ⟨"custom", "Xenova/opus-mt-en-id", [], none, false, none, false, true, false⟩
      = .swNotControlling
        "Service Worker belum siap mengontrol halaman. Silakan refresh halaman (Ctrl+R) dan coba lagi."
    ∧ (loadOfflineModelPre
        ⟨"custom", "Xenova/opus-mt-en-id", [], none, false, none, false, true, false⟩).returnedFalse
      = true
    ∧ (loadOfflineModelPre
        ⟨"custom", "Xenova/opus-mt-en-id", [], none, false, none, false, true, false⟩).errMsg
      = some "Service Worker belum siap mengontrol halaman. Silakan refresh halaman (Ctrl+R) dan coba lagi."
    ∧ (loadOfflineModelPre
        ⟨"custom", "Xenova/opus-mt-en-id", [], none, false, none, false, true, false⟩).constructsPipeline
      = false :=
  c9_sw_not_controlling_fails_definitively
    ⟨"custom", "Xenova/opus-mt-en-id", [], none, false, none, false, true, false⟩
    rfl (by decide) rfl rfl rfl

/-- **C10** (functional_correctness): the same-process interceptor answers a
request itself only when the request URL contains the reserved segment AND
the published asset map exists and is nonempty; whenever the map is absent or
empty, every request — including those under the reserved prefix — is
forwarded unchanged to the original fetch. -/
theorem c10_passthrough_without_map :
    (∀ (files : Option Files) (url : String),
      interceptedFetch files url ≠ .passthrough →
      strIncludes url customModelSeg = true
        ∧ ∃ fs, files = some fs ∧ 0 < fs.length)
    ∧ (∀ url : String, interceptedFetch none url = .passthrough)
    ∧ (∀ (url : String) (fs : Files), fs.length = 0 →
        interceptedFetch (some fs) url = .passthrough) := by
  refine ⟨?_, ?_, ?_⟩
  · intro files url h
    by_cases hseg : strIncludes url customModelSeg = true
    · refine ⟨hseg, ?_⟩
      cases files with
      | none =>
        exfalso
        apply h
        simp [interceptedFetch, hseg]
      | some fs =>
        refine ⟨fs, rfl, ?_⟩
        by_cases hlen : 0 < fs.length
        · exact hlen
        · exfalso
          apply h
          have hl0 : ¬ fs.length > 0 := hlen
          simp [interceptedFetch, hseg, hl0]
    · exfalso
      apply h
      simp [interceptedFetch, hseg]
  · intro url
    by_cases hseg : strIncludes url customModelSeg = true <;>
      simp [interceptedFetch, hseg]
  · intro url fs hlen
    have hl0 : ¬ fs.length > 0 := by omega
    by_cases hseg : strIncludes url customModelSeg = true <;>
      simp [interceptedFetch, hseg, hl0]

/-- Witness for **C10**: a served request really is under the prefix with a
nonempty published map. -/
theorem c10_passthrough_witness :
    strIncludes "/custom-model/a.json" customModelSeg = true
    ∧ ∃ fs, (some [("a.json", (⟨"A", "application/json"⟩ : Blob))] : Option Files) = some fs
        ∧ 0 < fs.length :=
  c10_passthrough_without_map.1 (some [("a.json", ⟨"A", "application/json"⟩)])
    "/custom-model/a.json" (by decide)

end BilingualReader
